import Mathlib

/-!
Verification of the potnet IPDB / subnet-carver subsystem.

This file shallowly embeds the Rust sources of the `potnet` tool
(`src/bin/potnet.rs` and the `pot` support crate) in Lean 4 and settles a
list of claims about them.  The embedding conventions:

* `IpAddr` and `IpNet` model `std::net::IpAddr` and `ipnet::IpNet`:
  addresses are natural numbers below `2^32` (V4) or `2^128` (V6).
  `IpNet` operations (`network`, `broadcast`, `netmask`, `contains`,
  `hosts`, `subnets`) are translated from the `ipnet` crate.  Bitwise
  `addr & netmask` is written arithmetically as
  `hostSize * (addr / hostSize)` (clearing the low `bits - prefix` bits),
  and `addr | hostmask` as `network + (hostSize - 1)`; these agree with
  the bitwise forms for all inputs.
* `BTreeMap<IpAddr, _>` is modelled as a list of pairs kept sorted by the
  Rust `Ord` on `IpAddr` (V4 before V6, numeric within a family);
  `mapInsert` is `BTreeMap::insert`, `mapOrInsert` is
  `entry(..).or_insert_with(..)`.
* File-system and child-process effects are factored out: functions that
  read jail/bridge configuration from disk take the parsed records (or
  the raw file contents) as parameters.
* `u16` arithmetic in `get_network_size` wraps modulo `2^16` exactly as
  release-mode Rust does; the loop is given explicit fuel so that its
  non-termination on input 65535 is expressible.
-/

set_option maxRecDepth 4000
set_option linter.unusedVariables false

namespace Potnet

/-- `std::net::IpAddr`: a V4 (32-bit) or V6 (128-bit) address. -/
inductive IpAddr where
  | v4 (a : Nat)
  | v6 (a : Nat)
deriving DecidableEq, Repr

/-- The numeric value of an address. -/
def IpAddr.val : IpAddr → Nat
  | .v4 a => a
  | .v6 a => a

/-- Family tag used to state the derived `Ord`: V4 sorts before V6. -/
def IpAddr.fam : IpAddr → Nat
  | .v4 _ => 0
  | .v6 _ => 1

/-- The address family's bit width (32 for V4, 128 for V6), as used by
`get_prefix_length` in `potnet.rs`. -/
def IpAddr.bits : IpAddr → Nat
  | .v4 _ => 32
  | .v6 _ => 128

/-- Rust's derived `Ord` on `IpAddr`: every V4 address is below every V6
address, and within a family the order is numeric. -/
def IpAddr.ltb : IpAddr → IpAddr → Bool
  | .v4 a, .v4 b => decide (a < b)
  | .v4 _, .v6 _ => true
  | .v6 _, .v4 _ => false
  | .v6 a, .v6 b => decide (a < b)

/-- `ipnet::IpNet`: an address together with a prefix length, per family.
The stored address need not have its host bits zero (`ipnet` keeps the
address as given; `network()` truncates). -/
inductive IpNet where
  | v4 (addr : Nat) (p : Nat)
  | v6 (addr : Nat) (p : Nat)
deriving DecidableEq, Repr

/-- Bit width of the net's family. -/
def IpNet.bits : IpNet → Nat
  | .v4 _ _ => 32
  | .v6 _ _ => 128

/-- The stored (possibly untruncated) address value. -/
def IpNet.addrV : IpNet → Nat
  | .v4 a _ => a
  | .v6 a _ => a

/-- The prefix length. -/
def IpNet.prefLen : IpNet → Nat
  | .v4 _ p => p
  | .v6 _ p => p

/-- Number of addresses covered by the net: `2^(bits - prefix)`. -/
def IpNet.hostSize (n : IpNet) : Nat := 2 ^ (n.bits - n.prefLen)

/-- `ipnet`'s `network()` as a number: the stored address with its host
bits cleared (`addr & netmask`). -/
def IpNet.netAddrV (n : IpNet) : Nat := n.hostSize * (n.addrV / n.hostSize)

/-- `ipnet`'s `broadcast()` as a number: `addr | hostmask`, i.e. the last
address of the net. -/
def IpNet.broadcastV (n : IpNet) : Nat := n.netAddrV + (n.hostSize - 1)

/-- `ipnet`'s `netmask()` as a number: the top `prefix` bits set. -/
def IpNet.netmaskV (n : IpNet) : Nat := 2 ^ n.bits - n.hostSize

/-- Tag a numeric value with the net's family. -/
def IpNet.tag (n : IpNet) (a : Nat) : IpAddr :=
  match n with
  | .v4 _ _ => .v4 a
  | .v6 _ _ => .v6 a

/-- `network()`: the first address of the net. -/
def IpNet.network (n : IpNet) : IpAddr := n.tag n.netAddrV

/-- `broadcast()`: the last address of the net. -/
def IpNet.broadcast (n : IpNet) : IpAddr := n.tag n.broadcastV

/-- `netmask()` as an `IpAddr`. -/
def IpNet.netmask (n : IpNet) : IpAddr := n.tag n.netmaskV

/-- Whether the address belongs to the net's family. -/
def IpNet.sameFam (n : IpNet) (a : IpAddr) : Bool :=
  match n, a with
  | .v4 _ _, .v4 _ => true
  | .v6 _ _, .v6 _ => true
  | _, _ => false

/-- `IpNet::contains(&IpAddr)`: same family and numerically between
`network()` and `broadcast()`. -/
def IpNet.containsA (n : IpNet) (a : IpAddr) : Bool :=
  n.sameFam a && decide (n.netAddrV ≤ a.val) && decide (a.val ≤ n.broadcastV)

/-- The inclusive range `[lo, hi]` as an ascending list (empty when
`hi < lo`). -/
def rangeList (lo hi : Nat) : List Nat :=
  (List.range (hi + 1 - lo)).map (lo + ·)

/-- `ipnet`'s `hosts()`, numerically: for V4 with prefix < 31 the range
excludes the network and broadcast addresses; for V4 /31 and /32 and for
V6 it is the whole range. -/
def IpNet.hostsV (n : IpNet) : List Nat :=
  match n with
  | .v4 _ _ =>
    if n.prefLen < 31 then rangeList (n.netAddrV + 1) (n.broadcastV - 1)
    else rangeList n.netAddrV n.broadcastV
  | .v6 _ _ => rangeList n.netAddrV n.broadcastV

/-- `hosts()` as a list of tagged addresses, in ascending address order
(the order the Rust iterator produces). -/
def IpNet.hosts (n : IpNet) : List IpAddr := n.hostsV.map n.tag

/-- Rebuild a net of the same family with a new address and prefix. -/
def IpNet.reNet (n : IpNet) (a p : Nat) : IpNet :=
  match n with
  | .v4 _ _ => .v4 a p
  | .v6 _ _ => .v6 a p

/-- `ipnet`'s `subnets(new_prefix)`: an error unless
`prefix ≤ new_prefix ≤ bits`, otherwise the contained subnets at the new
prefix in ascending address order. -/
def IpNet.subnetsL (n : IpNet) (p : Nat) : Except Unit (List IpNet) :=
  if n.prefLen ≤ p ∧ p ≤ n.bits then
    .ok ((List.range (2 ^ (p - n.prefLen))).map
      (fun i => n.reNet (n.netAddrV + i * 2 ^ (n.bits - p)) p))
  else .error ()

/-- A `BTreeMap<IpAddr, α>` as a list of pairs kept sorted by the Rust
`Ord` on `IpAddr`.  `mapInsert` is `BTreeMap::insert`: it replaces the
value when the key is already present. -/
def mapInsert {α : Type} : List (IpAddr × α) → IpAddr → α → List (IpAddr × α)
  | [], a, v => [(a, v)]
  | (b, w) :: t, a, v =>
    if IpAddr.ltb a b then (a, v) :: (b, w) :: t
    else if a = b then (a, v) :: t
    else (b, w) :: mapInsert t a v

/-- `BTreeMap::contains_key`. -/
def mapContains {α : Type} (db : List (IpAddr × α)) (a : IpAddr) : Bool :=
  db.any (fun p => decide (p.1 = a))

/-- `db.entry(a).or_insert_with(|| v)`: insert only when absent. -/
def mapOrInsert {α : Type} (db : List (IpAddr × α)) (a : IpAddr) (v : α) :
    List (IpAddr × α) :=
  if mapContains db a then db else mapInsert db a v

/-- The IPDB of `potnet.rs`: `BTreeMap<IpAddr, Option<String>>`. -/
abbrev Ipdb := List (IpAddr × Option String)

/-- `pot::NetType` (the `pot` crate version, with all four variants). -/
inductive NetType where
  | Inherit
  | Alias
  | PublicBridge
  | PrivateBridge
deriving DecidableEq, Repr

/-- `pot::PotConf`: one jail's scanned configuration. -/
structure PotConf where
  name : String
  ip_addr : Option IpAddr
  network_type : NetType
  aliases : Option (List String)
deriving DecidableEq, Repr

/-- `pot::BridgeConf`: one parsed bridge file. -/
structure BridgeConf where
  name : String
  network : IpNet
  gateway : IpAddr
deriving DecidableEq, Repr

/-- The resolved system configuration used by `potnet.rs`.  In the source
every field is an `Option` and `main` exits unless `is_valid()` (which
requires all of them, DNS included) holds, after which each use is
`unwrap()`ed; the fields here are those unwrapped values. -/
structure SystemConf where
  zfs_root : String
  fs_root : String
  network : IpNet
  netmask : IpAddr
  gateway : IpAddr
  ext_if : String
  dns_name : String
  dns_ip : IpAddr
deriving DecidableEq, Repr

/-- The `ip_addr.unwrap()` of a jail record.  The scanner only produces
`PublicBridge`/`PrivateBridge` records with an address present, so the
default is never reached on scanner output (Rust would panic there). -/
def PotConf.ipUnwrap (v : PotConf) : IpAddr := v.ip_addr.getD (IpAddr.v4 0)

/-- `potnet.rs` `get`: the `next` query in network scope.  Iterates
`network.hosts()` in order and returns the first address not in the IPDB
(`None` models "nothing printed"). -/
def get (conf : SystemConf) (ip_db : Ipdb) : Option IpAddr :=
  conf.network.hosts.find? (fun addr => !(mapContains ip_db addr))

/-- The `bridges_list.iter().find(|x| x.name == bridge_name)` lookup. -/
def findBridge (bridges : List BridgeConf) (bridge_name : String) :
    Option BridgeConf :=
  bridges.find? (fun x => decide (x.name = bridge_name))

/-- `potnet.rs` `init_bridge_ipdb`: the bridge-local IPDB.  `pots` is the
result of `get_pot_conf_list`. -/
def init_bridge_ipdb (bridge : BridgeConf) (pots : List PotConf) : Ipdb :=
  let db : Ipdb := []
  let db := mapInsert db bridge.network.network
    (some (bridge.name ++ " bridge - network "))
  let db := mapInsert db bridge.network.broadcast
    (some (bridge.name ++ " bridge - broadcast "))
  let db := mapInsert db bridge.gateway
    (some (bridge.name ++ " bridge - gateway "))
  pots.foldl (fun db v =>
    if (v.network_type = NetType.PublicBridge ∨
        v.network_type = NetType.PrivateBridge)
        ∧ bridge.network.containsA v.ipUnwrap = true
    then mapInsert db v.ipUnwrap (some v.name) else db) db

/-- `potnet.rs` `get_next_from_bridge`: the `next` query in bridge scope
(`None` both when the bridge is unknown and when the range is
exhausted). -/
def get_next_from_bridge (bridges : List BridgeConf) (pots : List PotConf)
    (bridge_name : String) : Option IpAddr :=
  match findBridge bridges bridge_name with
  | some bridge =>
    (bridge.network.hosts).find?
      (fun addr => !(mapContains (init_bridge_ipdb bridge pots) addr))
  | none => none

/-- Wrap to 16 bits (release-mode `u16` arithmetic). -/
def w16 (n : Nat) : Nat := n % 65536

/-- The loop of `get_network_size`, with explicit fuel.  `max_hosts` is
a `u16`: the Rust break condition `host_number <= max_hosts - 2` with
wrapping subtraction is `host_number ≤ (max_hosts + 2^16 - 2) % 2^16`,
and `max_hosts <<= 1` wraps likewise — which is what makes the loop
diverge for `host_number = 65535`.  (`result` is a `u8`; it never
exceeds 16 on any reachable break, so `Nat` models it exactly there.)
`none` means the fuel ran out before the loop broke. -/
def gnsLoop : Nat → Nat → Nat → Nat → Option Nat
  | 0, _, _, _ => none
  | fuel + 1, host_number, max_hosts, result =>
    if host_number ≤ w16 (max_hosts + 65534) then some result
    else gnsLoop fuel host_number (w16 (max_hosts * 2)) (result + 1)

/-- `potnet.rs` `get_network_size`.  Fuel 32 is more than the at most 15
iterations the loop performs whenever it terminates. -/
def get_network_size (host_number : Nat) : Option Nat :=
  if host_number = 0 then none
  else gnsLoop 32 host_number 4 2

/-- `potnet.rs` `get_prefix_length`: family bit width of the given
address minus the network size. -/
def get_prefix_length (host_number : Nat) (ip_addr : IpAddr) : Option Nat :=
  match get_network_size host_number with
  | some network_size => some (ip_addr.bits - network_size)
  | none => none

/-- `potnet.rs` `is_subnet_usable`: no IPDB key lies inside the subnet. -/
def is_subnet_usable (subnet : IpNet) (ip_db : Ipdb) : Bool :=
  ip_db.all (fun p => !(subnet.containsA p.1))

/-- `potnet.rs` `new_net`: the subnet carver.  `some (s, g)` models the
two printed lines `net=<s>` and `gateway=<g>`, where `g` is
`s.hosts().nth(0).unwrap()` (never absent for the prefixes the code can
build, since `network_size ≥ 2`). -/
def new_net (host_number : Nat) (conf : SystemConf) (ip_db : Ipdb) :
    Option (IpNet × IpAddr) :=
  match get_prefix_length host_number conf.gateway with
  | none => none
  | some prefix_length =>
    match conf.network.subnetsL prefix_length with
    | .error _ => none
    | .ok subnets =>
      match subnets.find? (fun s => is_subnet_usable s ip_db) with
      | none => none
      | some s => (s.hosts.head?).map (fun g => (s, g))

/-- The user-visible validation failures of `potnet.rs` (the strings of
the `format_err!` calls). -/
inductive VErr where
  | alreadyInUse
  | outsideNetwork
  | outsideBridgeNetwork
  | bridgeNotFound
deriving DecidableEq, Repr

/-- `potnet.rs` `validate` (network scope): in-use is checked before
containment. -/
def validate (ip : IpAddr) (conf : SystemConf) (ip_db : Ipdb) :
    Except VErr Unit :=
  if mapContains ip_db ip then .error .alreadyInUse
  else if !(conf.network.containsA ip) then .error .outsideNetwork
  else .ok ()

/-- `potnet.rs` `validate_with_bridge` (bridge scope): unknown bridge,
then containment, then in-use. -/
def validate_with_bridge (conf : SystemConf) (bridges : List BridgeConf)
    (pots : List PotConf) (bridge_name : String) (ip : IpAddr) :
    Except VErr Unit :=
  match findBridge bridges bridge_name with
  | none => .error .bridgeNotFound
  | some bridge =>
    if !(bridge.network.containsA ip) then .error .outsideBridgeNetwork
    else if mapContains (init_bridge_ipdb bridge pots) ip then
      .error .alreadyInUse
    else .ok ()

/-- The jail pass of `init_ipdb`: every `PublicBridge`/`PrivateBridge`
jail's address is inserted with the jail name as label. -/
def potStep (db : Ipdb) (v : PotConf) : Ipdb :=
  if v.network_type = NetType.PublicBridge ∨
     v.network_type = NetType.PrivateBridge
  then mapInsert db v.ipUnwrap (some v.name) else db

/-- The bridge pass of `init_ipdb` for one bridge: the bridge's network,
broadcast and gateway addresses, then every host address not already
present. -/
def bridgeStep (db : Ipdb) (b : BridgeConf) : Ipdb :=
  let db := mapInsert db b.network.network
    (some (b.name ++ " bridge - network "))
  let db := mapInsert db b.network.broadcast
    (some (b.name ++ " bridge - broadcast "))
  let db := mapInsert db b.gateway
    (some (b.name ++ " bridge - gateway "))
  b.network.hosts.foldl (fun db host =>
    mapOrInsert db host (some (b.name ++ " bridge - allocated address"))) db

/-- `potnet.rs` `init_ipdb`: the main IPDB.  `pots` and `bridges` are the
results of `get_pot_conf_list` and `get_bridges_list`. -/
def init_ipdb (conf : SystemConf) (pots : List PotConf)
    (bridges : List BridgeConf) : Ipdb :=
  let db := mapInsert ([] : Ipdb) conf.network.network none
  let db := mapInsert db conf.network.broadcast none
  let db := mapInsert db conf.gateway (some "default gateway")
  let db := mapInsert db conf.dns_ip (some conf.dns_name)
  let db := pots.foldl potStep db
  bridges.foldl bridgeStep db

/-- The `Command::ConfigCheck` arm of `potnet.rs` `main`: all three
violations are reported with `error!`, but `std::process::exit(1)` is
reached only when the gateway is outside the network or the netmask
disagrees; otherwise the process ends with status 0. -/
def config_check_exit (conf : SystemConf) : Nat :=
  if !(conf.network.containsA conf.gateway)
     || !(decide (conf.network.netmask = conf.netmask)) then 1 else 0

/-- The shared shape of the two `etc-hosts` loops: insert the address
and name of every jail the selection predicate accepts. -/
def selStep (sel : PotConf → Bool) (db : List (IpAddr × String))
    (v : PotConf) : List (IpAddr × String) :=
  if sel v then mapInsert db v.ipUnwrap v.name else db

/-- `potnet.rs` `get_hosts_for_public_bridge`: the `BTreeMap` the
`etc-hosts` command builds with no bridge argument. -/
def get_hosts_for_public_bridge (pots : List PotConf) :
    List (IpAddr × String) :=
  pots.foldl
    (selStep (fun v => decide (v.network_type = NetType.PublicBridge))) []

/-- `potnet.rs` `get_hosts_from_bridge`: the map built for a named
bridge (empty when the bridge is unknown — the code prints nothing). -/
def get_hosts_from_bridge (bridges : List BridgeConf) (pots : List PotConf)
    (bridge_name : String) : List (IpAddr × String) :=
  match findBridge bridges bridge_name with
  | some bridge =>
    pots.foldl
      (selStep (fun v => decide (v.network_type = NetType.PrivateBridge)
        && bridge.network.containsA v.ipUnwrap)) []
  | none => []

/-- The lines printed by `etc-hosts`: `println!("{} {}", ip, hostname)`
over the map in (sorted) iteration order.  `showIp` stands for the
`Display` instance of `IpAddr`. -/
def etc_hosts_lines (showIp : IpAddr → String)
    (db : List (IpAddr × String)) : List String :=
  db.map (fun p => showIp p.1 ++ " " ++ p.2)

/-- The `Display` rendering of a V4 address (`a.b.c.d` in decimal). -/
def ipv4Display (a : Nat) : String :=
  toString (a / 16777216 % 256) ++ "." ++ toString (a / 65536 % 256) ++ "."
    ++ toString (a / 256 % 256) ++ "." ++ toString (a % 256)

/-- A concrete stand-in for `IpAddr`'s `Display`: faithful on V4.  (V6
rendering — RFC 5952 zero-run compression — is not modelled; every
format-level statement below is evaluated on V4 addresses only.) -/
def ipShow : IpAddr → String
  | .v4 a => ipv4Display a
  | .v6 a => toString a

/-- `pot::error::PotError` (the variants the embedded code can return). -/
inductive PotError where
  | IncompleteSystemConf
  | BridgeConfError
deriving DecidableEq, Repr

/-- `pot::system::PartialSystemConf` (`pot/src/system.rs`): every field
optional, as merged from the defaults and overrides files. -/
structure PartialSystemConf where
  zfs_root : Option String
  fs_root : Option String
  network : Option IpNet
  netmask : Option IpAddr
  gateway : Option IpAddr
  ext_if : Option String
  dns_name : Option String
  dns_ip : Option IpAddr
deriving DecidableEq, Repr

/-- `PartialSystemConf::is_valid` (`pot/src/system.rs` lines 39-48): all
eight fields, the DNS pair included, must be present. -/
def PartialSystemConf.is_valid (s : PartialSystemConf) : Bool :=
  s.zfs_root.isSome && s.fs_root.isSome && s.network.isSome
    && s.netmask.isSome && s.gateway.isSome && s.ext_if.isSome
    && s.dns_name.isSome && s.dns_ip.isSome

/-- `pot::PotDnsConfig`. -/
structure PotDnsConfig where
  pot_name : String
  ip : IpAddr
deriving DecidableEq, Repr

/-- `pot::PotSystemConfig` (`pot/src/lib.rs`): the promoted
configuration, with an optional DNS pair. -/
structure PotSystemConfig where
  zfs_root : String
  fs_root : String
  network : IpNet
  netmask : IpAddr
  gateway : IpAddr
  ext_if : String
  dns : Option PotDnsConfig
deriving DecidableEq, Repr

/-- `TryFrom<PartialSystemConf> for PotSystemConfig`
(`pot/src/lib.rs` lines 58-79).  The `unwrap()`s are guarded by
`is_valid` (which forces every field present), so `getD` with a dummy
default models them exactly on the reachable branch. -/
def potSystemConfigTryFrom (psc : PartialSystemConf) :
    Except PotError PotSystemConfig :=
  if psc.is_valid then
    .ok
      { zfs_root := psc.zfs_root.getD ""
        fs_root := psc.fs_root.getD ""
        network := psc.network.getD (IpNet.v4 0 0)
        netmask := psc.netmask.getD (IpAddr.v4 0)
        gateway := psc.gateway.getD (IpAddr.v4 0)
        ext_if := psc.ext_if.getD ""
        dns :=
          match psc.dns_ip with
          | some ip => some { pot_name := psc.dns_name.getD "", ip := ip }
          | none => none }
  else .error PotError.IncompleteSystemConf

/-- `pot::PotConfVerbatim`: the raw key values collected from a jail's
`conf/pot.conf`.  Values are kept as raw character lists — the jail
scanner takes the whole text after the first `=` (it does not trim and
does not strip trailing comments). -/
structure PotConfVerbatim where
  vnet : Option (List Char)
  ip4 : Option (List Char)
  ip : Option (List Char)
  network_type : Option (List Char)
  aliases : Option (List (List Char))
deriving DecidableEq, Repr

/-- `PotConfVerbatim::default()`. -/
def PotConfVerbatim.empty : PotConfVerbatim :=
  { vnet := none, ip4 := none, ip := none, network_type := none,
    aliases := none }

/-- Split a character list at every occurrence of `c` (the model of
Rust's `str::split(c)`; also used with `'\n'` for `str::lines`). -/
def splitOnChar (c : Char) : List Char → List (List Char)
  | [] => [[]]
  | x :: xs =>
    if x = c then [] :: splitOnChar c xs
    else
      match splitOnChar c xs with
      | [] => [[x]]
      | y :: ys => (x :: y) :: ys

/-- `str::starts_with` for a literal pattern (first argument). -/
def strStarts : List Char → List Char → Bool
  | [], _ => true
  | _ :: _, [] => false
  | x :: xs, y :: ys => x = y && strStarts xs ys

/-- `s.split('=').nth(1).unwrap()`: the text after the first `=` up to
the next `=`.  Guarded by `starts_with "<key>="`, so element 1 always
exists where the scanner calls it. -/
def afterEq (s : List Char) : List Char := (splitOnChar '=' s).getD 1 []

/-- One line of the jail scanner's collection loop
(`pot/src/lib.rs` lines 198-215): each `starts_with` key overwrites the
collected value; `pot.aliases=` pushes one entry per occurrence. -/
def scanLine (t : PotConfVerbatim) (s : List Char) : PotConfVerbatim :=
  let t := if strStarts ("ip4=".data) s then { t with ip4 := some (afterEq s) } else t
  let t := if strStarts ("ip=".data) s then { t with ip := some (afterEq s) } else t
  let t := if strStarts ("vnet=".data) s then { t with vnet := some (afterEq s) } else t
  let t := if strStarts ("network_type=".data) s then
    { t with network_type := some (afterEq s) } else t
  if strStarts ("pot.aliases=".data) s then
    { t with aliases := some ((t.aliases.getD []) ++ [afterEq s]) } else t

/-- The verbatim record collected from one jail's configuration text. -/
def scanVerbatim (content : List Char) : PotConfVerbatim :=
  (splitOnChar '\n' content).foldl scanLine PotConfVerbatim.empty

/-- The outcome of processing one jail directory in
`get_pot_conf_list`: `skip` is `continue`, `push` appends a record, and
`panicked` is the `IpAddr::from_str(..).ok().unwrap()` panic on an
unparseable address. -/
inductive ScanStep where
  | skip
  | push (p : PotConf)
  | panicked
deriving DecidableEq, Repr

/-- The per-jail classification of `get_pot_conf_list`
(`pot/src/lib.rs` lines 216-259).  `parseIp` stands for
`IpAddr::from_str` on the raw value.  Modern schema: `network_type`
decides; `alias` and unknown values are skipped, bridges require `ip`
(parse failure panics).  Legacy schema (no `network_type`): `ip4` is
parsed *before* `vnet` is examined (so a bad `ip4` panics even without
`vnet`); `vnet == "true"` gives `PublicBridge`, any other `vnet` gives
`Alias` — and the record is pushed. -/
def classifyJail (parseIp : List Char → Option IpAddr) (name : String)
    (t : PotConfVerbatim) : ScanStep :=
  match t.network_type with
  | some nt =>
    if nt = "inherit".data then
      .push { name := name, ip_addr := none, network_type := NetType.Inherit,
              aliases := t.aliases.map (fun l => l.map (fun s => String.mk s)) }
    else if nt = "alias".data then .skip
    else if nt = "public-bridge".data ∨ nt = "private-bridge".data then
      match t.ip with
      | some ipRaw =>
        match parseIp ipRaw with
        | some a =>
          .push { name := name, ip_addr := some a,
                  network_type :=
                    if nt = "public-bridge".data then NetType.PublicBridge
                    else NetType.PrivateBridge,
                  aliases := t.aliases.map (fun l => l.map (fun s => String.mk s)) }
        | none => .panicked
      | none => .skip
    else .skip
  | none =>
    match t.ip4 with
    | some ip4 =>
      if ip4 = "inherit".data then
        .push { name := name, ip_addr := none,
                network_type := NetType.Inherit, aliases := none }
      else
        match parseIp ip4 with
        | none => .panicked
        | some a =>
          match t.vnet with
          | some vnet =>
            .push { name := name, ip_addr := some a,
                    network_type :=
                      if vnet = "true".data then NetType.PublicBridge
                      else NetType.Alias,
                    aliases := none }
          | none => .skip
    | none => .skip

/-- The per-jail processing of `get_pot_conf_list`: collect the raw keys,
then classify. -/
def scanJail (parseIp : List Char → Option IpAddr) (name : String)
    (content : List Char) : ScanStep :=
  classifyJail parseIp name (scanVerbatim content)

/-- `pot::get_pot_conf_list` over the jail directories' `(name, text)`
pairs.  A panic in any jail aborts the whole invocation (`.error ()`). -/
def get_pot_conf_list (parseIp : List Char → Option IpAddr) :
    List (String × List Char) → Except Unit (List PotConf)
  | [] => .ok []
  | (name, content) :: rest =>
    match scanJail parseIp name content with
    | .panicked => .error ()
    | .skip => get_pot_conf_list parseIp rest
    | .push p =>
      match get_pot_conf_list parseIp rest with
      | .ok l => .ok (p :: l)
      | .error e => .error e

/-- One dotted-quad octet per Rust's `Ipv4Addr` parser: 1 to 3 decimal
digits, no leading zero unless the octet is exactly "0", value ≤ 255. -/
def parseOctet (s : List Char) : Option Nat :=
  if s.all Char.isDigit ∧ s ≠ [] ∧ s.length ≤ 3
     ∧ (s.length = 1 ∨ s.headD '0' ≠ '0') then
    let v := s.foldl (fun acc c => acc * 10 + (c.toNat - 48)) 0
    if v ≤ 255 then some v else none
  else none

/-- `IpAddr::from_str` restricted to V4 dotted-quad literals: the
concrete parsing oracle used at every concrete input below.  (Strings
that are valid V6 literals never occur in those inputs, so the missing
V6 branch of `from_str` is irrelevant there.) -/
def parse_ip_v4 (s : List Char) : Option IpAddr :=
  match (splitOnChar '.' s).map parseOctet with
  | [some a, some b, some c, some d] =>
    some (IpAddr.v4 (a * 16777216 + b * 65536 + c * 256 + d))
  | _ => none

/-- The specification's `network_size(H)`: the smallest `k ≥ 2` with
`2^k - 2 ≥ H` (spec §4.7 step 1).  Used only on the spec side of the
refinement statements, never in the code embedding. -/
def specNetworkSize (H : Nat) : Nat :=
  Nat.find (⟨H + 2, by omega, by
    have h1 : H < 2 ^ H := Nat.lt_two_pow H
    have h2 : 2 ^ (H + 2) = 4 * 2 ^ H := by ring
    omega⟩ : ∃ k, 2 ≤ k ∧ H ≤ 2 ^ k - 2)

/-! ### Concrete fixtures (used by witnesses and counterexamples) -/

/-- `192.168.0.0/29` with gateway `.1` and DNS `.2`. -/
def conf29 : SystemConf :=
  { zfs_root := "zroot/pot", fs_root := "/opt/pot",
    network := IpNet.v4 3232235520 29, netmask := IpAddr.v4 4294967288,
    gateway := IpAddr.v4 3232235521, ext_if := "em0",
    dns_name := "pot-dns", dns_ip := IpAddr.v4 3232235522 }

/-- The main IPDB of `conf29` with no jails and no bridges. -/
def db29 : Ipdb := init_ipdb conf29 [] []

/-- A bridge on `10.0.0.0/29` with gateway `10.0.0.1`. -/
def bridgeA : BridgeConf :=
  { name := "bra", network := IpNet.v4 167772160 29,
    gateway := IpAddr.v4 167772161 }

/-- Jails `a@10.0.0.10` (public), `b` (inherit), `c@10.0.0.12` (public) —
spec §8 scenario 6. -/
def jailsPub : List PotConf :=
  [ { name := "a", ip_addr := some (IpAddr.v4 167772170),
      network_type := NetType.PublicBridge, aliases := none },
    { name := "b", ip_addr := none,
      network_type := NetType.Inherit, aliases := none },
    { name := "c", ip_addr := some (IpAddr.v4 167772172),
      network_type := NetType.PublicBridge, aliases := none } ]

/-- A merged partial system configuration with every non-DNS field
present and the DNS pair absent. -/
def pscNoDns : PartialSystemConf :=
  { zfs_root := some "zroot/pot", fs_root := some "/opt/pot",
    network := some (IpNet.v4 3232235520 24),
    netmask := some (IpAddr.v4 4294967040),
    gateway := some (IpAddr.v4 3232235521), ext_if := some "em0",
    dns_name := none, dns_ip := none }

/-- A configuration whose only invariant violation is a DNS address
outside the network. -/
def confDnsOut : SystemConf :=
  { zfs_root := "zroot/pot", fs_root := "/opt/pot",
    network := IpNet.v4 3232235520 24, netmask := IpAddr.v4 4294967040,
    gateway := IpAddr.v4 3232235521, ext_if := "em0",
    dns_name := "pot-dns", dns_ip := IpAddr.v4 167772161 }

/-- The sortedness invariant of the `BTreeMap` model: keys strictly
increase in the Rust `Ord`. -/
def mapSorted {α : Type} (db : List (IpAddr × α)) : Prop :=
  db.Pairwise (fun p q => IpAddr.ltb p.1 q.1 = true)

/-! ### Embedding sanity: the arithmetic network/broadcast forms agree
with `ipnet`'s bitwise ones -/

theorem testBit_mul_pow_div (a k i : Nat) :
    (2 ^ k * (a / 2 ^ k)).testBit i = (decide (k ≤ i) && a.testBit i) := by
  have h1 : 2 ^ k * (a / 2 ^ k) = (a >>> k) <<< k := by
    rw [Nat.shiftRight_eq_div_pow, Nat.shiftLeft_eq, Nat.mul_comm]
  rw [h1, Nat.testBit_shiftLeft]
  by_cases hk : k ≤ i
  · have hge : decide (i ≥ k) = true := decide_eq_true hk
    rw [hge, Bool.true_and, Bool.true_and, Nat.testBit_shiftRight]
    congr 1
    omega
  · have hge : decide (i ≥ k) = false := decide_eq_false hk
    rw [hge, Bool.false_and, Bool.false_and]

theorem testBit_high_mask (b k i : Nat) (hkb : k ≤ b) :
    (2 ^ b - 2 ^ k).testBit i = (decide (k ≤ i) && decide (i < b)) := by
  have h1 : 2 ^ b - 2 ^ k = (2 ^ (b - k) - 1) <<< k := by
    rw [Nat.shiftLeft_eq, Nat.sub_mul, one_mul, ← pow_add]
    congr 2
    omega
  rw [h1, Nat.testBit_shiftLeft]
  by_cases hk : k ≤ i
  · rw [decide_eq_true (show i ≥ k from hk), Bool.true_and, Bool.true_and,
      Nat.testBit_two_pow_sub_one, decide_eq_decide]
    omega
  · rw [decide_eq_false (show ¬ (i ≥ k) from hk), Bool.false_and,
      Bool.false_and]

theorem testBit_mul_pow_add_lt (q y k i : Nat) (hy : y < 2 ^ k) :
    (2 ^ k * q + y).testBit i
      = if i < k then y.testBit i else (2 ^ k * q).testBit i := by
  by_cases hik : i < k
  · rw [if_pos hik]
    have hsplit : 2 ^ k * q = 2 ^ i * (2 ^ (k - i) * q) := by
      rw [← Nat.mul_assoc, ← pow_add]
      congr 2
      omega
    have hdiv : (2 ^ k * q + y) / 2 ^ i = y / 2 ^ i + 2 ^ (k - i) * q := by
      rw [hsplit, Nat.add_comm,
        Nat.add_mul_div_left _ _ (pow_pos (by norm_num) i)]
    have heven : 2 ^ (k - i) * q = 2 * (2 ^ (k - i - 1) * q) := by
      rw [← Nat.mul_assoc, ← pow_succ']
      congr 2
      omega
    rw [Nat.testBit_to_div_mod, Nat.testBit_to_div_mod, hdiv, heven,
      decide_eq_decide]
    omega
  · rw [if_neg hik]
    have hki : k ≤ i := by omega
    have hdvdi : (2 : Nat) ^ k ∣ 2 ^ i := pow_dvd_pow 2 hki
    have hdvdR : (2 : Nat) ^ k ∣ 2 ^ k * q % 2 ^ i :=
      (Nat.dvd_mod_iff hdvdi).mpr (Dvd.intro q rfl)
    have hRbound : 2 ^ k * q % 2 ^ i + y < 2 ^ i := by
      obtain ⟨c, hc⟩ := hdvdR
      obtain ⟨d, hd⟩ := hdvdi
      have hmlt : 2 ^ k * q % 2 ^ i < 2 ^ i :=
        Nat.mod_lt _ (pow_pos (by norm_num) i)
      have hcd : c < d := by
        by_contra hcd
        push_neg at hcd
        have hle : 2 ^ k * d ≤ 2 ^ k * c := Nat.mul_le_mul_left _ hcd
        rw [← hc, ← hd] at hle
        omega
      have hstep : 2 ^ k * c + 2 ^ k ≤ 2 ^ k * d := by
        calc 2 ^ k * c + 2 ^ k = 2 ^ k * (c + 1) := by ring
        _ ≤ 2 ^ k * d := Nat.mul_le_mul_left _ (by omega)
      rw [hc, hd]
      omega
    have hdiv : (2 ^ k * q + y) / 2 ^ i = 2 ^ k * q / 2 ^ i := by
      conv_lhs => rw [show 2 ^ k * q
        = 2 ^ i * (2 ^ k * q / 2 ^ i) + 2 ^ k * q % 2 ^ i from
          (Nat.div_add_mod _ _).symm]
      rw [Nat.add_assoc, Nat.add_comm (2 ^ i * (2 ^ k * q / 2 ^ i)),
        Nat.add_mul_div_left _ _ (pow_pos (by norm_num) i),
        Nat.div_eq_of_lt hRbound]
      omega
    rw [Nat.testBit_to_div_mod, Nat.testBit_to_div_mod, hdiv]

theorem mul_pow_div_add_pred_eq_lor (a k : Nat) :
    2 ^ k * (a / 2 ^ k) + (2 ^ k - 1) = a ||| (2 ^ k - 1) := by
  have hpos : 0 < 2 ^ k := pow_pos (by norm_num) k
  apply Nat.eq_of_testBit_eq
  intro i
  rw [testBit_mul_pow_add_lt _ _ _ _ (show 2 ^ k - 1 < 2 ^ k from by omega),
    Nat.testBit_lor, Nat.testBit_two_pow_sub_one]
  by_cases hik : i < k
  · rw [if_pos hik, decide_eq_true hik, Bool.or_true]
  · rw [if_neg hik, testBit_mul_pow_div,
      decide_eq_true (show k ≤ i from by omega), Bool.true_and,
      decide_eq_false hik, Bool.or_false]

/-- The arithmetic `network()` equals `ipnet`'s bitwise `addr & netmask`
for every address within the family's bit width. -/
theorem netAddrV_eq_land (n : IpNet) (ha : n.addrV < 2 ^ n.bits)
    (hp : n.prefLen ≤ n.bits) :
    n.netAddrV = n.addrV &&& (2 ^ n.bits - 2 ^ (n.bits - n.prefLen)) := by
  apply Nat.eq_of_testBit_eq
  intro i
  rw [IpNet.netAddrV, IpNet.hostSize, testBit_mul_pow_div, Nat.testBit_land,
    testBit_high_mask _ _ _ (by omega)]
  by_cases h1 : n.bits - n.prefLen ≤ i
  · by_cases h2 : i < n.bits
    · simp [h1, h2]
    · have hbit : n.addrV.testBit i = false :=
        Nat.testBit_lt_two_pow (lt_of_lt_of_le ha
          (Nat.pow_le_pow_right (by norm_num) (by omega)))
      simp [h1, h2, hbit]
  · simp [h1]

/-- The arithmetic `broadcast()` equals `ipnet`'s bitwise
`addr | hostmask`. -/
theorem broadcastV_eq_lor (n : IpNet) :
    n.broadcastV = n.addrV ||| (2 ^ (n.bits - n.prefLen) - 1) := by
  rw [IpNet.broadcastV, IpNet.netAddrV, IpNet.hostSize]
  exact mul_pow_div_add_pred_eq_lor n.addrV (n.bits - n.prefLen)

/-! ### Generic lemmas: `find?`, ranges, and the sorted-map model -/

theorem find?_eq_some_split {α : Type} (p : α → Bool) (l : List α) (a : α) :
    l.find? p = some a ↔
      ∃ l1 l2, l = l1 ++ a :: l2 ∧ p a = true ∧ ∀ b ∈ l1, p b = false := by
  induction l with
  | nil => simp [List.find?]
  | cons x xs ih =>
    by_cases hx : p x = true
    · simp only [List.find?, hx, Option.some.injEq]
      constructor
      · rintro rfl
        exact ⟨[], xs, rfl, hx, by simp⟩
      · rintro ⟨l1, l2, heq, hpa, hall⟩
        cases l1 with
        | nil =>
          simp only [List.nil_append] at heq
          injection heq
        | cons y ys =>
          simp only [List.cons_append] at heq
          injection heq with h1 h2
          have hpy := hall y (List.mem_cons_self y ys)
          rw [← h1] at hpy
          rw [hpy] at hx
          cases hx
    · have hx' : p x = false := by revert hx; cases (p x) <;> simp
      simp only [List.find?, hx']
      rw [ih]
      constructor
      · rintro ⟨l1, l2, rfl, hpa, hall⟩
        refine ⟨x :: l1, l2, rfl, hpa, ?_⟩
        intro b hb
        rcases List.mem_cons.mp hb with rfl | hb'
        · exact hx'
        · exact hall b hb'
      · rintro ⟨l1, l2, heq, hpa, hall⟩
        cases l1 with
        | nil =>
          simp only [List.nil_append] at heq
          injection heq with h1 h2
          rw [h1, hpa] at hx'
          cases hx'
        | cons y ys =>
          simp only [List.cons_append] at heq
          injection heq with h1 h2
          exact ⟨ys, l2, h2, hpa, fun b hb => hall b (List.mem_cons_of_mem _ hb)⟩

theorem find?_eq_none_all {α : Type} (p : α → Bool) (l : List α) :
    l.find? p = none ↔ ∀ a ∈ l, p a = false := by
  induction l with
  | nil => simp [List.find?]
  | cons x xs ih =>
    by_cases hx : p x = true
    · simp [List.find?, hx]
    · have hx' : p x = false := by simpa using hx
      simp [List.find?, hx', ih]

theorem mem_rangeList {lo hi x : Nat} :
    x ∈ rangeList lo hi ↔ lo ≤ x ∧ x ≤ hi := by
  simp only [rangeList, List.mem_map, List.mem_range]
  constructor
  · rintro ⟨i, hi', rfl⟩; omega
  · rintro ⟨h1, h2⟩; exact ⟨x - lo, by omega, by omega⟩

theorem rangeList_pairwise (lo hi : Nat) :
    (rangeList lo hi).Pairwise (· < ·) := by
  exact List.Pairwise.map _ (fun h => by omega) (List.pairwise_lt_range _)

theorem mapContains_iff {α : Type} (db : List (IpAddr × α)) (a : IpAddr) :
    mapContains db a = true ↔ ∃ v, (a, v) ∈ db := by
  simp only [mapContains, List.any_eq_true, decide_eq_true_eq]
  constructor
  · rintro ⟨⟨k, v⟩, hm, rfl⟩; exact ⟨v, hm⟩
  · rintro ⟨v, hm⟩; exact ⟨(a, v), hm, rfl⟩

theorem mem_mapInsert_weak {α : Type} {db : List (IpAddr × α)}
    {a x : IpAddr} {v u : α} (h : (x, u) ∈ mapInsert db a v) :
    (x = a ∧ u = v) ∨ (x, u) ∈ db := by
  induction db with
  | nil =>
    simp only [mapInsert, List.mem_singleton] at h
    exact Or.inl ⟨congrArg Prod.fst h, congrArg Prod.snd h⟩
  | cons b t ih =>
    obtain ⟨bk, bw⟩ := b
    by_cases h1 : IpAddr.ltb a bk = true
    · simp only [mapInsert, if_pos h1] at h
      rcases List.mem_cons.mp h with h' | h'
      · exact Or.inl ⟨congrArg Prod.fst h', congrArg Prod.snd h'⟩
      · exact Or.inr h'
    · by_cases h2 : a = bk
      · simp only [mapInsert, if_neg h1, if_pos h2] at h
        rcases List.mem_cons.mp h with h' | h'
        · exact Or.inl ⟨congrArg Prod.fst h', congrArg Prod.snd h'⟩
        · exact Or.inr (List.mem_cons_of_mem _ h')
      · simp only [mapInsert, if_neg h1, if_neg h2] at h
        rcases List.mem_cons.mp h with h' | h'
        · rw [h']; exact Or.inr (List.mem_cons_self _ _)
        · rcases ih h' with h'' | h''
          · exact Or.inl h''
          · exact Or.inr (List.mem_cons_of_mem _ h'')

theorem mapContains_insert_self {α : Type} (db : List (IpAddr × α))
    (a : IpAddr) (v : α) : mapContains (mapInsert db a v) a = true := by
  rw [mapContains_iff]
  induction db with
  | nil => exact ⟨v, by simp [mapInsert]⟩
  | cons b t ih =>
    obtain ⟨bk, bw⟩ := b
    simp only [mapInsert]
    split
    · exact ⟨v, by simp⟩
    · split
      · exact ⟨v, by simp⟩
      · obtain ⟨w, hw⟩ := ih
        exact ⟨w, List.mem_cons_of_mem _ hw⟩

theorem mapContains_insert_mono {α : Type} {db : List (IpAddr × α)}
    {x : IpAddr} (a : IpAddr) (v : α) (h : mapContains db x = true) :
    mapContains (mapInsert db a v) x = true := by
  rw [mapContains_iff] at h ⊢
  obtain ⟨w, hw⟩ := h
  by_cases hxa : x = a
  · subst hxa
    have := mapContains_insert_self db x v
    rwa [mapContains_iff] at this
  · induction db with
    | nil => cases hw
    | cons b t ih =>
      obtain ⟨bk, bw⟩ := b
      by_cases h1 : IpAddr.ltb a bk = true
      · simp only [mapInsert, if_pos h1]
        exact ⟨w, List.mem_cons_of_mem _ hw⟩
      · by_cases h2 : a = bk
        · simp only [mapInsert, if_neg h1, if_pos h2]
          rcases List.mem_cons.mp hw with h' | h'
          · have hx : x = bk := congrArg Prod.fst h'
            rw [← h2] at hx
            exact absurd hx hxa
          · exact ⟨w, List.mem_cons_of_mem _ h'⟩
        · simp only [mapInsert, if_neg h1, if_neg h2]
          rcases List.mem_cons.mp hw with h' | h'
          · refine ⟨bw, ?_⟩
            have hx : x = bk := congrArg Prod.fst h'
            rw [hx]
            exact List.mem_cons_self _ _
          · obtain ⟨w', hw'⟩ := ih h'
            exact ⟨w', List.mem_cons_of_mem _ hw'⟩

theorem mapContains_orInsert_self {α : Type} (db : List (IpAddr × α))
    (a : IpAddr) (v : α) : mapContains (mapOrInsert db a v) a = true := by
  unfold mapOrInsert
  split
  · assumption
  · exact mapContains_insert_self db a v

theorem mapContains_orInsert_mono {α : Type} {db : List (IpAddr × α)}
    {x : IpAddr} (a : IpAddr) (v : α) (h : mapContains db x = true) :
    mapContains (mapOrInsert db a v) x = true := by
  unfold mapOrInsert
  split
  · exact h
  · exact mapContains_insert_mono a v h

theorem foldl_contains_mono {α β : Type}
    (f : List (IpAddr × α) → β → List (IpAddr × α))
    (hf : ∀ db b x, mapContains db x = true → mapContains (f db b) x = true) :
    ∀ (l : List β) (db : List (IpAddr × α)) (x : IpAddr),
      mapContains db x = true → mapContains (l.foldl f db) x = true := by
  intro l
  induction l with
  | nil => intro db x h; simpa using h
  | cons b t ih => intro db x h; exact ih _ _ (hf _ _ _ h)

theorem ltb_irrefl (a : IpAddr) : IpAddr.ltb a a = false := by
  cases a <;> simp [IpAddr.ltb]

theorem ltb_trans {a b c : IpAddr} (h1 : IpAddr.ltb a b = true)
    (h2 : IpAddr.ltb b c = true) : IpAddr.ltb a c = true := by
  cases a <;> cases b <;> cases c <;>
    simp [IpAddr.ltb] at * <;> omega

theorem ltb_ne {a b : IpAddr} (h : IpAddr.ltb a b = true) : a ≠ b := by
  intro heq
  rw [heq, ltb_irrefl] at h
  cases h

theorem ltb_total {a b : IpAddr} (h1 : IpAddr.ltb a b = false) (h2 : a ≠ b) :
    IpAddr.ltb b a = true := by
  cases a <;> cases b <;> simp [IpAddr.ltb] at * <;> omega

theorem mapSorted_nil {α : Type} : mapSorted ([] : List (IpAddr × α)) :=
  List.Pairwise.nil

theorem mapInsert_sorted {α : Type} {db : List (IpAddr × α)}
    (hs : mapSorted db) (a : IpAddr) (v : α) :
    mapSorted (mapInsert db a v) := by
  induction db with
  | nil => simpa [mapInsert, mapSorted] using List.pairwise_singleton _ _
  | cons b t ih =>
    obtain ⟨bk, bw⟩ := b
    have hs' : mapSorted t := hs.of_cons
    have hb : ∀ q ∈ t, IpAddr.ltb bk q.1 = true := (List.pairwise_cons.mp hs).1
    by_cases h1 : IpAddr.ltb a bk = true
    · simp only [mapInsert, if_pos h1]
      refine List.pairwise_cons.mpr ⟨?_, hs⟩
      intro q hq
      rcases List.mem_cons.mp hq with rfl | hq'
      · exact h1
      · exact ltb_trans h1 (hb q hq')
    · by_cases h2 : a = bk
      · simp only [mapInsert, if_neg h1, if_pos h2]
        refine List.pairwise_cons.mpr ⟨?_, hs'⟩
        intro q hq
        rw [h2]
        exact hb q hq
      · simp only [mapInsert, if_neg h1, if_neg h2]
        refine List.pairwise_cons.mpr ⟨?_, ih hs'⟩
        intro q hq
        obtain ⟨qk, qv⟩ := q
        rcases mem_mapInsert_weak hq with ⟨hqa, _⟩ | hq'
        · show IpAddr.ltb bk qk = true
          rw [hqa]
          exact ltb_total (by simpa using h1) h2
        · exact hb _ hq'

theorem self_mem_mapInsert {α : Type} (db : List (IpAddr × α)) (a : IpAddr)
    (v : α) : (a, v) ∈ mapInsert db a v := by
  induction db with
  | nil => simp [mapInsert]
  | cons b t ih =>
    obtain ⟨bk, bw⟩ := b
    by_cases h1 : IpAddr.ltb a bk = true
    · simp [mapInsert, h1]
    · by_cases h2 : a = bk
      · subst h2
        simp [mapInsert, ltb_irrefl]
      · simp only [mapInsert, if_neg h1, if_neg h2]
        exact List.mem_cons_of_mem _ ih

theorem mem_mapInsert_of_ne {α : Type} {db : List (IpAddr × α)}
    {x a : IpAddr} {u : α} (v : α) (h : (x, u) ∈ db) (hne : x ≠ a) :
    (x, u) ∈ mapInsert db a v := by
  induction db with
  | nil => cases h
  | cons b t ih =>
    obtain ⟨bk, bw⟩ := b
    by_cases h1 : IpAddr.ltb a bk = true
    · simp only [mapInsert, if_pos h1]
      exact List.mem_cons_of_mem _ h
    · by_cases h2 : a = bk
      · simp only [mapInsert, if_neg h1, if_pos h2]
        rcases List.mem_cons.mp h with h' | h'
        · exfalso
          apply hne
          rw [h2]
          exact congrArg Prod.fst h'
        · exact List.mem_cons_of_mem _ h'
      · simp only [mapInsert, if_neg h1, if_neg h2]
        rcases List.mem_cons.mp h with h' | h'
        · rw [h']
          exact List.mem_cons_self _ _
        · exact List.mem_cons_of_mem _ (ih h')

theorem containsA_true_iff {n : IpNet} {a : IpAddr} :
    n.containsA a = true ↔
      n.sameFam a = true ∧ n.netAddrV ≤ a.val ∧ a.val ≤ n.broadcastV := by
  simp [IpNet.containsA, Bool.and_eq_true, decide_eq_true_eq, and_assoc]

/-- Every address a net contains is its network address, its broadcast
address, or one of its `hosts()`. -/
theorem containsA_cases {n : IpNet} {a : IpAddr} (h : n.containsA a = true) :
    a = n.network ∨ a = n.broadcast ∨ a ∈ n.hosts := by
  rw [containsA_true_iff] at h
  obtain ⟨hf, h1, h2⟩ := h
  cases n with
  | v4 addr p =>
    cases a with
    | v6 x => simp [IpNet.sameFam] at hf
    | v4 x =>
      simp only [IpAddr.val] at h1 h2
      simp only [IpNet.network, IpNet.broadcast, IpNet.tag, IpNet.hosts,
        IpNet.hostsV]
      by_cases hp : (IpNet.v4 addr p).prefLen < 31
      · rw [if_pos hp]
        by_cases hx1 : x = (IpNet.v4 addr p).netAddrV
        · left
          rw [hx1]
        · by_cases hx2 : x = (IpNet.v4 addr p).broadcastV
          · right
            left
            rw [hx2]
          · right
            right
            simp only [List.mem_map]
            refine ⟨x, ?_, rfl⟩
            rw [mem_rangeList]
            omega
      · rw [if_neg hp]
        right
        right
        simp only [List.mem_map]
        refine ⟨x, ?_, rfl⟩
        rw [mem_rangeList]
        omega
  | v6 addr p =>
    cases a with
    | v4 x => simp [IpNet.sameFam] at hf
    | v6 x =>
      simp only [IpAddr.val] at h1 h2
      simp only [IpNet.network, IpNet.broadcast, IpNet.tag, IpNet.hosts,
        IpNet.hostsV]
      right
      right
      simp only [List.mem_map]
      refine ⟨x, ?_, rfl⟩
      rw [mem_rangeList]
      omega

theorem foldl_orInsert_self {α : Type} (l : List IpAddr) (v : α) :
    ∀ (db : List (IpAddr × α)) (x : IpAddr), x ∈ l →
      mapContains (l.foldl (fun db h => mapOrInsert db h v) db) x = true := by
  induction l with
  | nil =>
    intro db x h
    cases h
  | cons y t ih =>
    intro db x h
    rcases List.mem_cons.mp h with rfl | h'
    · exact foldl_contains_mono _
        (fun db b x h => mapContains_orInsert_mono _ _ h) t _ x
        (mapContains_orInsert_self db x v)
    · exact ih _ x h'

theorem bridgeStep_mono {db : Ipdb} {x : IpAddr} (b : BridgeConf)
    (h : mapContains db x = true) : mapContains (bridgeStep db b) x = true := by
  unfold bridgeStep
  refine foldl_contains_mono _
    (fun db h x hc => mapContains_orInsert_mono _ _ hc) _ _ _ ?_
  exact mapContains_insert_mono _ _
    (mapContains_insert_mono _ _ (mapContains_insert_mono _ _ h))

/-- After `init_ipdb`'s bridge pass handles bridge `b`, every address of
`b.network` is present. -/
theorem bridgeStep_covers (db : Ipdb) (b : BridgeConf) {a : IpAddr}
    (h : b.network.containsA a = true) :
    mapContains (bridgeStep db b) a = true := by
  rcases containsA_cases h with h' | h' | h'
  · subst h'
    unfold bridgeStep
    refine foldl_contains_mono _
      (fun db h x hc => mapContains_orInsert_mono _ _ hc) _ _ _ ?_
    exact mapContains_insert_mono _ _
      (mapContains_insert_mono _ _ (mapContains_insert_self _ _ _))
  · subst h'
    unfold bridgeStep
    refine foldl_contains_mono _
      (fun db h x hc => mapContains_orInsert_mono _ _ hc) _ _ _ ?_
    exact mapContains_insert_mono _ _ (mapContains_insert_self _ _ _)
  · unfold bridgeStep
    exact foldl_orInsert_self _ _ _ _ h'

/-- Every address of every bridge's network is a key of `init_ipdb`'s
result. -/
theorem init_ipdb_bridge_closure (conf : SystemConf) (pots : List PotConf)
    (bridges : List BridgeConf) (b : BridgeConf) (hb : b ∈ bridges)
    {a : IpAddr} (h : b.network.containsA a = true) :
    mapContains (init_ipdb conf pots bridges) a = true := by
  obtain ⟨l1, l2, rfl⟩ := List.append_of_mem hb
  unfold init_ipdb
  rw [List.foldl_append, List.foldl_cons]
  exact foldl_contains_mono _ (fun db b x hc => bridgeStep_mono b hc) l2 _ _
    (bridgeStep_covers _ b h)

theorem new_net_inv {hn : Nat} {conf : SystemConf} {db : Ipdb} {s : IpNet}
    {g : IpAddr} (h : new_net hn conf db = some (s, g)) :
    ∃ p subs, get_prefix_length hn conf.gateway = some p ∧
      conf.network.subnetsL p = .ok subs ∧
      subs.find? (fun s' => is_subnet_usable s' db) = some s ∧
      s.hosts.head? = some g := by
  unfold new_net at h
  cases hp : get_prefix_length hn conf.gateway with
  | none =>
    rw [hp] at h
    dsimp only at h
    cases h
  | some p =>
    rw [hp] at h
    dsimp only at h
    cases hsub : conf.network.subnetsL p with
    | error e =>
      rw [hsub] at h
      try dsimp only at h
      cases h
    | ok subs =>
      rw [hsub] at h
      try dsimp only at h
      cases hf : subs.find? (fun s' => is_subnet_usable s' db) with
      | none =>
        rw [hf] at h
        try dsimp only at h
        cases h
      | some s' =>
        rw [hf] at h
        try dsimp only at h
        cases hh : s'.hosts.head? with
        | none =>
          rw [hh] at h
          try dsimp only at h
          cases h
        | some g' =>
          rw [hh] at h
          simp only [Option.map_some'] at h
          injection h with h'
          cases h'
          exact ⟨p, subs, rfl, hsub, hf, hh⟩

theorem subnetsL_ok {n : IpNet} {p : Nat} {subs : List IpNet}
    (h : n.subnetsL p = .ok subs) :
    n.prefLen ≤ p ∧ p ≤ n.bits ∧
      subs = (List.range (2 ^ (p - n.prefLen))).map
        (fun i => n.reNet (n.netAddrV + i * 2 ^ (n.bits - p)) p) := by
  unfold IpNet.subnetsL at h
  split at h
  · rename_i hc
    injection h with h'
    exact ⟨hc.1, hc.2, h'.symm⟩
  · cases h

theorem reNet_bits (n : IpNet) (a p : Nat) : (n.reNet a p).bits = n.bits := by
  cases n <;> rfl

theorem reNet_addrV (n : IpNet) (a p : Nat) : (n.reNet a p).addrV = a := by
  cases n <;> rfl

theorem reNet_prefLen (n : IpNet) (a p : Nat) :
    (n.reNet a p).prefLen = p := by
  cases n <;> rfl

theorem reNet_sameFam (n : IpNet) (a p : Nat) (x : IpAddr) :
    (n.reNet a p).sameFam x = n.sameFam x := by
  cases n <;> cases x <;> rfl

/-- Every subnet the carver enumerates has the requested prefix length
and is contained in the enclosing network. -/
theorem subnet_mem_spec {n : IpNet} {p : Nat} {subs : List IpNet}
    {s : IpNet} (hok : n.subnetsL p = .ok subs) (hs : s ∈ subs) :
    s.prefLen = p ∧ ∀ a, s.containsA a = true → n.containsA a = true := by
  obtain ⟨hp1, hp2, rfl⟩ := subnetsL_ok hok
  simp only [List.mem_map, List.mem_range] at hs
  obtain ⟨i, hi, rfl⟩ := hs
  refine ⟨reNet_prefLen _ _ _, ?_⟩
  intro a hc
  rw [containsA_true_iff] at hc ⊢
  obtain ⟨hf, hl, hr⟩ := hc
  have hpos : 0 < 2 ^ (n.bits - p) := pow_pos (by norm_num) _
  have hsz : (n.reNet (n.netAddrV + i * 2 ^ (n.bits - p)) p).hostSize
      = 2 ^ (n.bits - p) := by
    rw [IpNet.hostSize, reNet_bits, reNet_prefLen]
  have hsplit : n.hostSize = 2 ^ (n.bits - p) * 2 ^ (p - n.prefLen) := by
    rw [IpNet.hostSize, ← pow_add]
    congr 1
    omega
  have hdvd : 2 ^ (n.bits - p) ∣ n.netAddrV := by
    refine Dvd.dvd.trans ?_ (Dvd.intro _ rfl)
    rw [hsplit]
    exact Dvd.intro _ rfl
  obtain ⟨q, hq⟩ := hdvd
  have hna : (n.reNet (n.netAddrV + i * 2 ^ (n.bits - p)) p).netAddrV
      = n.netAddrV + i * 2 ^ (n.bits - p) := by
    rw [IpNet.netAddrV, hsz, reNet_addrV, hq]
    rw [show 2 ^ (n.bits - p) * q + i * 2 ^ (n.bits - p)
        = 2 ^ (n.bits - p) * (q + i) by ring]
    rw [Nat.mul_div_cancel_left _ hpos]
  have hbV : (n.reNet (n.netAddrV + i * 2 ^ (n.bits - p)) p).broadcastV
      = n.netAddrV + i * 2 ^ (n.bits - p) + (2 ^ (n.bits - p) - 1) := by
    rw [IpNet.broadcastV, hna, hsz]
  rw [hna] at hl
  rw [hbV] at hr
  rw [reNet_sameFam] at hf
  refine ⟨hf, le_trans (Nat.le_add_right _ _) hl, ?_⟩
  have hstep : n.netAddrV + i * 2 ^ (n.bits - p) + (2 ^ (n.bits - p) - 1)
      ≤ n.netAddrV + (n.hostSize - 1) := by
    have hm1 : (i + 1) * 2 ^ (n.bits - p)
        ≤ 2 ^ (p - n.prefLen) * 2 ^ (n.bits - p) :=
      Nat.mul_le_mul_right _ (by omega)
    have hm2 : 2 ^ (p - n.prefLen) * 2 ^ (n.bits - p) = n.hostSize := by
      rw [hsplit]
      ring
    have hm3 : i * 2 ^ (n.bits - p) + 2 ^ (n.bits - p)
        = (i + 1) * 2 ^ (n.bits - p) := by ring
    omega
  have hgoal : n.broadcastV = n.netAddrV + (n.hostSize - 1) := rfl
  omega

/-! ### The `get_network_size` loop -/

theorem gnsLoop_break {f h mh r : Nat} (hc : h ≤ w16 (mh + 65534)) :
    gnsLoop (f + 1) h mh r = some r := by
  simp only [gnsLoop]
  rw [if_pos hc]

theorem gnsLoop_step {f h mh r : Nat} (hc : ¬ h ≤ w16 (mh + 65534)) :
    gnsLoop (f + 1) h mh r = gnsLoop f h (w16 (mh * 2)) (r + 1) := by
  simp only [gnsLoop]
  rw [if_neg hc]

/-- With `host_number = 65535` the wrapped `u16` loop never breaks: once
`max_hosts` wraps to 0 it stays 0 and the condition `65535 ≤ 65534` is
never true — the Rust loop runs forever. -/
theorem gnsLoop_diverges_aux :
    ∀ (fuel mh r : Nat), mh % 2 = 0 → mh < 65536 →
      gnsLoop fuel 65535 mh r = none := by
  intro fuel
  induction fuel with
  | zero =>
    intro mh r _ _
    rfl
  | succ f ih =>
    intro mh r he hlt
    have hcond : ¬ (65535 ≤ w16 (mh + 65534)) := by
      unfold w16
      omega
    rw [gnsLoop_step hcond]
    exact ih _ _ (by unfold w16; omega) (by unfold w16; omega)

theorem gnsLoop_correct :
    ∀ (fuel r h : Nat), 2 ≤ r → r ≤ 16 → 1 ≤ h → h ≤ 65534 →
      (∀ j, 2 ≤ j → j < r → ¬ (h ≤ 2 ^ j - 2)) → 16 - r < fuel →
      gnsLoop fuel h (2 ^ r % 65536) r = some (specNetworkSize h) := by
  intro fuel
  induction fuel with
  | zero =>
    intro r h _ _ _ _ _ hf
    omega
  | succ f ih =>
    intro r h hr2 hr16 h1 h2 hprev hf
    by_cases hcase : r = 16
    · subst hcase
      have hcond : h ≤ w16 (2 ^ 16 % 65536 + 65534) := by
        unfold w16
        norm_num
        omega
      have hspec : specNetworkSize h = 16 := by
        rw [specNetworkSize, Nat.find_eq_iff]
        refine ⟨⟨by norm_num, by norm_num; omega⟩, ?_⟩
        intro m hm
        rintro ⟨hm2, hmh⟩
        exact hprev m hm2 hm hmh
      rw [gnsLoop_break hcond, hspec]
    · have hrlt : r ≤ 15 := by omega
      have hrsmall : 2 ^ r ≤ 32768 := by
        calc 2 ^ r ≤ 2 ^ 15 := Nat.pow_le_pow_right (by norm_num) hrlt
        _ = 32768 := by norm_num
      have hr4 : 4 ≤ 2 ^ r := by
        calc (4 : Nat) = 2 ^ 2 := by norm_num
        _ ≤ 2 ^ r := Nat.pow_le_pow_right (by norm_num) hr2
      have hmod : 2 ^ r % 65536 = 2 ^ r := Nat.mod_eq_of_lt (by omega)
      have hcondval : w16 (2 ^ r % 65536 + 65534) = 2 ^ r - 2 := by
        unfold w16
        omega
      by_cases hbr : h ≤ 2 ^ r - 2
      · have hcond2 : h ≤ w16 (2 ^ r % 65536 + 65534) := by
          rw [hcondval]
          exact hbr
        have hspec : specNetworkSize h = r := by
          rw [specNetworkSize, Nat.find_eq_iff]
          refine ⟨⟨hr2, hbr⟩, ?_⟩
          intro m hm
          rintro ⟨hm2, hmh⟩
          exact hprev m hm2 (by omega) hmh
        rw [gnsLoop_break hcond2, hspec]
      · have hcond : ¬ (h ≤ w16 (2 ^ r % 65536 + 65534)) := by
          rw [hcondval]
          exact hbr
        rw [gnsLoop_step hcond]
        have hnext : w16 (2 ^ r % 65536 * 2) = 2 ^ (r + 1) % 65536 := by
          rw [hmod]
          unfold w16
          rw [pow_succ]
        rw [hnext]
        refine ih (r + 1) h (by omega) (by omega) h1 h2 ?_ (by omega)
        intro j hj2 hjlt
        by_cases hjr : j = r
        · subst hjr
          exact hbr
        · exact hprev j hj2 (by omega)

/-- For every host count the u16 loop can handle (`1 ≤ H ≤ 65534`),
`get_network_size` computes the spec's smallest `k`. -/
theorem get_network_size_correct (h : Nat) (h1 : 1 ≤ h) (h2 : h ≤ 65534) :
    get_network_size h = some (specNetworkSize h) := by
  unfold get_network_size
  rw [if_neg (by omega)]
  rw [show (4 : Nat) = 2 ^ 2 % 65536 by norm_num]
  exact gnsLoop_correct 32 2 h (by norm_num) (by norm_num) h1 h2
    (fun j hj2 hjlt => absurd hjlt (by omega)) (by norm_num)

/-! ### Scanner lemmas -/

/-- A jail whose modern `network_type` key says `alias` is skipped. -/
theorem classifyJail_alias_skip (parseIp : List Char → Option IpAddr)
    (name : String) (t : PotConfVerbatim)
    (h : t.network_type = some ("alias".data)) :
    classifyJail parseIp name t = .skip := by
  unfold classifyJail
  rw [h]
  dsimp only
  rw [if_neg (by decide), if_pos rfl]

/-- A pushed record classified `Alias` can only come from the legacy
path: its jail has no `network_type` key. -/
theorem classifyJail_alias_only_legacy (parseIp : List Char → Option IpAddr)
    (name : String) (t : PotConfVerbatim) (p : PotConf)
    (hp : classifyJail parseIp name t = .push p)
    (ha : p.network_type = NetType.Alias) :
    t.network_type = none := by
  unfold classifyJail at hp
  cases ht : t.network_type with
  | none => rfl
  | some nt =>
    rw [ht] at hp
    dsimp only at hp
    by_cases h1 : nt = "inherit".data
    · rw [if_pos h1] at hp
      injection hp with hp'
      rw [← hp'] at ha
      simp at ha
    · rw [if_neg h1] at hp
      by_cases h2 : nt = "alias".data
      · rw [if_pos h2] at hp
        cases hp
      · rw [if_neg h2] at hp
        by_cases h3 : nt = "public-bridge".data ∨ nt = "private-bridge".data
        · rw [if_pos h3] at hp
          cases hip : t.ip with
          | none =>
            rw [hip] at hp
            dsimp only at hp
            cases hp
          | some ipRaw =>
            rw [hip] at hp
            dsimp only at hp
            cases hpi : parseIp ipRaw with
            | none =>
              rw [hpi] at hp
              dsimp only at hp
              cases hp
            | some a =>
              rw [hpi] at hp
              dsimp only at hp
              injection hp with hp'
              rw [← hp'] at ha
              by_cases h4 : nt = "public-bridge".data
              · simp [h4] at ha
              · simp [h4] at ha
        · rw [if_neg h3] at hp
          cases hp

/-! ### The `etc-hosts` map -/

theorem selStep_foldl_sorted (sel : PotConf → Bool) (pots : List PotConf) :
    ∀ acc, mapSorted acc → mapSorted (pots.foldl (selStep sel) acc) := by
  induction pots with
  | nil =>
    intro acc h
    exact h
  | cons v t ih =>
    intro acc h
    simp only [List.foldl_cons]
    apply ih
    unfold selStep
    split
    · exact mapInsert_sorted h _ _
    · exact h

theorem selStep_foldl_mem (sel : PotConf → Bool) :
    ∀ (pots : List PotConf) (acc : List (IpAddr × String)),
      ((pots.filter sel).map PotConf.ipUnwrap).Nodup →
      (∀ p ∈ acc, ∀ v ∈ pots, sel v = true → p.1 ≠ v.ipUnwrap) →
      ∀ (i : IpAddr) (nm : String),
        (i, nm) ∈ pots.foldl (selStep sel) acc ↔
          ((i, nm) ∈ acc ∨
            ∃ v ∈ pots, sel v = true ∧ v.ipUnwrap = i ∧ v.name = nm) := by
  intro pots
  induction pots with
  | nil =>
    intro acc hd hdis i nm
    simp
  | cons v t ih =>
    intro acc hd hdis i nm
    simp only [List.foldl_cons]
    by_cases hv : sel v = true
    · have hstep : selStep sel acc v = mapInsert acc v.ipUnwrap v.name := by
        unfold selStep
        rw [if_pos hv]
      rw [hstep]
      have hfil : (v :: t).filter sel = v :: t.filter sel := by
        simp [List.filter_cons, hv]
      rw [hfil] at hd
      simp only [List.map_cons, List.nodup_cons] at hd
      obtain ⟨hvnin, hd'⟩ := hd
      have hnotin : ∀ w ∈ t, sel w = true → v.ipUnwrap ≠ w.ipUnwrap := by
        intro w hw hsw heq
        exact hvnin (by
          rw [heq]
          exact List.mem_map_of_mem _ (List.mem_filter.mpr ⟨hw, hsw⟩))
      have hdis' : ∀ p ∈ mapInsert acc v.ipUnwrap v.name, ∀ w ∈ t,
          sel w = true → p.1 ≠ w.ipUnwrap := by
        intro p hp w hw hsw
        obtain ⟨pk, pv⟩ := p
        rcases mem_mapInsert_weak hp with ⟨hpk, _⟩ | hpacc
        · rw [hpk]
          exact hnotin w hw hsw
        · exact hdis (pk, pv) hpacc w (List.mem_cons_of_mem _ hw) hsw
      rw [ih (mapInsert acc v.ipUnwrap v.name) hd' hdis' i nm]
      constructor
      · rintro (hm | hex)
        · rcases mem_mapInsert_weak hm with ⟨rfl, rfl⟩ | hacc
          · exact Or.inr ⟨v, List.mem_cons_self _ _, hv, rfl, rfl⟩
          · exact Or.inl hacc
        · obtain ⟨w, hw, hws, hwi, hwn⟩ := hex
          exact Or.inr ⟨w, List.mem_cons_of_mem _ hw, hws, hwi, hwn⟩
      · rintro (hacc | ⟨w, hw, hws, hwi, hwn⟩)
        · left
          refine mem_mapInsert_of_ne _ hacc ?_
          exact hdis (i, nm) hacc v (List.mem_cons_self _ _) hv
        · rcases List.mem_cons.mp hw with rfl | hw'
          · left
            rw [← hwi, ← hwn]
            exact self_mem_mapInsert _ _ _
          · exact Or.inr ⟨w, hw', hws, hwi, hwn⟩
    · have hstep : selStep sel acc v = acc := by
        unfold selStep
        rw [if_neg hv]
      rw [hstep]
      have hfil : (v :: t).filter sel = t.filter sel := by
        simp only [List.filter_cons]
        rw [if_neg hv]
      rw [hfil] at hd
      have hdis' : ∀ p ∈ acc, ∀ w ∈ t, sel w = true → p.1 ≠ w.ipUnwrap :=
        fun p hp w hw hsw => hdis p hp w (List.mem_cons_of_mem _ hw) hsw
      rw [ih acc hd hdis' i nm]
      constructor
      · rintro (hacc | ⟨w, hw, hws, hwi, hwn⟩)
        · exact Or.inl hacc
        · exact Or.inr ⟨w, List.mem_cons_of_mem _ hw, hws, hwi, hwn⟩
      · rintro (hacc | ⟨w, hw, hws, hwi, hwn⟩)
        · exact Or.inl hacc
        · rcases List.mem_cons.mp hw with rfl | hw'
          · rw [hws] at hv
            cases hv rfl
          · exact Or.inr ⟨w, hw', hws, hwi, hwn⟩

theorem hostsV_pairwise (n : IpNet) : n.hostsV.Pairwise (· < ·) := by
  cases n with
  | v4 addr p =>
    simp only [IpNet.hostsV]
    split
    · exact rangeList_pairwise _ _
    · exact rangeList_pairwise _ _
  | v6 addr p =>
    simp only [IpNet.hostsV]
    exact rangeList_pairwise _ _

theorem not_contains_iff {db : Ipdb} {a : IpAddr} :
    (!(mapContains db a)) = true ↔ mapContains db a = false := by
  cases h : mapContains db a <;> simp [h]

/-! ### The claims -/

/-- C1: next-free query correctness.  In both scopes, the emitted address
is the first element of the relevant `hosts()` list (which is in strictly
ascending address order) that is not a key of the (bridge-local) IPDB:
it is not in the IPDB, it lies in the queried network's host range, and
every earlier host address is in the IPDB; and nothing is emitted exactly
when every host address is taken. -/
theorem c1_next_free :
    ∀ (conf : SystemConf) (ip_db : Ipdb) (bridges : List BridgeConf)
      (pots : List PotConf) (bridge_name : String) (bridge : BridgeConf),
      findBridge bridges bridge_name = some bridge →
      ((∀ a, get conf ip_db = some a ↔
          ∃ l1 l2, conf.network.hosts = l1 ++ a :: l2
            ∧ mapContains ip_db a = false
            ∧ ∀ b ∈ l1, mapContains ip_db b = true)
        ∧ (get conf ip_db = none ↔
            ∀ a ∈ conf.network.hosts, mapContains ip_db a = true)
        ∧ (conf.network.hostsV).Pairwise (· < ·)
        ∧ (∀ a, get_next_from_bridge bridges pots bridge_name = some a ↔
            ∃ l1 l2, bridge.network.hosts = l1 ++ a :: l2
              ∧ mapContains (init_bridge_ipdb bridge pots) a = false
              ∧ ∀ b ∈ l1, mapContains (init_bridge_ipdb bridge pots) b = true)
        ∧ (get_next_from_bridge bridges pots bridge_name = none ↔
            ∀ a ∈ bridge.network.hosts,
              mapContains (init_bridge_ipdb bridge pots) a = true)) := by
  intro conf ip_db bridges pots bridge_name bridge hfb
  have hsome : ∀ (net : IpNet) (db : Ipdb) (a : IpAddr),
      net.hosts.find? (fun addr => !(mapContains db addr)) = some a ↔
        ∃ l1 l2, net.hosts = l1 ++ a :: l2 ∧ mapContains db a = false
          ∧ ∀ b ∈ l1, mapContains db b = true := by
    intro net db a
    rw [find?_eq_some_split]
    constructor
    · rintro ⟨l1, l2, hsp, hpa, hall⟩
      refine ⟨l1, l2, hsp, not_contains_iff.mp hpa, ?_⟩
      intro b hb
      have := hall b hb
      cases h : mapContains db b
      · rw [h] at this
        cases this
      · rfl
    · rintro ⟨l1, l2, hsp, hna, hall⟩
      refine ⟨l1, l2, hsp, not_contains_iff.mpr hna, ?_⟩
      intro b hb
      rw [hall b hb]
      rfl
  have hnone : ∀ (net : IpNet) (db : Ipdb),
      net.hosts.find? (fun addr => !(mapContains db addr)) = none ↔
        ∀ a ∈ net.hosts, mapContains db a = true := by
    intro net db
    rw [find?_eq_none_all]
    constructor
    · intro hall a ha
      have := hall a ha
      cases h : mapContains db a
      · rw [h] at this
        cases this
      · rfl
    · intro hall a ha
      rw [hall a ha]
      rfl
  refine ⟨fun a => hsome _ _ a, hnone _ _, hostsV_pairwise _, ?_, ?_⟩
  · intro a
    unfold get_next_from_bridge
    rw [hfb]
    exact hsome _ _ a
  · unfold get_next_from_bridge
    rw [hfb]
    exact hnone _ _

/-- C1 witness: with `192.168.0.0/29` (network, gateway `.1`, DNS `.2`
reserved) the next free address is `.3`; on the bridge `10.0.0.0/29`
(network, broadcast, gateway reserved) it is `10.0.0.2`. -/
theorem c1_next_free_witness :
    get conf29 db29 = some (IpAddr.v4 3232235523)
    ∧ get_next_from_bridge [bridgeA] [] "bra" = some (IpAddr.v4 167772162) := by
  constructor
  · exact ((c1_next_free conf29 db29 [bridgeA] [] "bra" bridgeA (by decide)).1
      (IpAddr.v4 3232235523)).mpr
      ⟨[IpAddr.v4 3232235521, IpAddr.v4 3232235522],
       [IpAddr.v4 3232235524, IpAddr.v4 3232235525, IpAddr.v4 3232235526],
       by decide, by decide, by decide⟩
  · exact ((c1_next_free conf29 db29 [bridgeA] [] "bra" bridgeA
      (by decide)).2.2.2.1 (IpAddr.v4 167772162)).mpr
      ⟨[IpAddr.v4 167772161],
       [IpAddr.v4 167772163, IpAddr.v4 167772164, IpAddr.v4 167772165,
        IpAddr.v4 167772166],
       by decide, by decide, by decide⟩

/-- C2: subnet-carver correctness.  Whenever `new-net` emits
`net=<s>` / `gateway=<g>` for a host count `2 ≤ H ≤ 65534`, the subnet
`s` has prefix length `family_bits(gateway) - network_size(H)` (the
spec's smallest-k network size), is contained in the configured network,
contains no IPDB key, no earlier subnet in the enumeration (which is
address order) is free of IPDB keys, and `g` is the first usable host of
`s`. -/
theorem c2_new_net_carver :
    ∀ (host_number : Nat) (conf : SystemConf) (ip_db : Ipdb)
      (s : IpNet) (g : IpAddr),
      2 ≤ host_number → host_number ≤ 65534 →
      new_net host_number conf ip_db = some (s, g) →
      s.prefLen = conf.gateway.bits - specNetworkSize host_number
      ∧ (∀ a, s.containsA a = true → conf.network.containsA a = true)
      ∧ is_subnet_usable s ip_db = true
      ∧ (∃ subs l1 l2, conf.network.subnetsL s.prefLen = .ok subs
          ∧ subs = l1 ++ s :: l2
          ∧ ∀ s' ∈ l1, is_subnet_usable s' ip_db = false)
      ∧ s.hosts.head? = some g := by
  intro hn conf db s g h2 h65 hnew
  obtain ⟨p, subs, hp, hsub, hf, hh⟩ := new_net_inv hnew
  have hgns : get_network_size hn = some (specNetworkSize hn) :=
    get_network_size_correct hn (by omega) h65
  have hpval : p = conf.gateway.bits - specNetworkSize hn := by
    unfold get_prefix_length at hp
    rw [hgns] at hp
    dsimp only at hp
    injection hp with hp'
    exact hp'.symm
  obtain ⟨l1, l2, hsplit, hus, hprev⟩ := (find?_eq_some_split _ _ _).mp hf
  have hmem : s ∈ subs := by
    rw [hsplit]
    exact List.mem_append_right _ (List.mem_cons_self _ _)
  obtain ⟨hpre, hcont⟩ := subnet_mem_spec hsub hmem
  refine ⟨by rw [hpre, hpval], hcont, hus, ⟨subs, l1, l2, ?_, hsplit, ?_⟩, hh⟩
  · rw [hpre]
    exact hsub
  · intro s' hs'
    have := hprev s' hs'
    cases h : is_subnet_usable s' db
    · rfl
    · rw [h] at this
      cases this

/-- C2 witness: with network `10.0.0.0/24`, V4 gateway and the key
`10.0.0.1` in the IPDB, `new-net -s 5` skips `10.0.0.0/29` and emits
`net=10.0.0.8/29`, `gateway=10.0.0.9`. -/
theorem c2_new_net_carver_witness :
    (IpNet.v4 167772168 29).prefLen
        = (IpAddr.v4 167772161).bits - specNetworkSize 5
    ∧ is_subnet_usable (IpNet.v4 167772168 29)
        [(IpAddr.v4 167772161, some "gw")] = true
    ∧ (IpNet.v4 167772168 29).hosts.head? = some (IpAddr.v4 167772169) := by
  have h := c2_new_net_carver 5
    { zfs_root := "z", fs_root := "/opt/pot",
      network := IpNet.v4 167772160 24, netmask := IpAddr.v4 4294967040,
      gateway := IpAddr.v4 167772161, ext_if := "em0",
      dns_name := "d", dns_ip := IpAddr.v4 167772162 }
    [(IpAddr.v4 167772161, some "gw")]
    (IpNet.v4 167772168 29) (IpAddr.v4 167772169)
    (by decide) (by decide) (by decide)
  exact ⟨h.1, h.2.2.1, h.2.2.2.2⟩

/-- C3: `get_network_size` termination and value.  The claim's boundary
values hold and for `1 ≤ H ≤ 65534` the function returns the spec's
smallest `k ≥ 2` with `2^k - 2 ≥ H` — but at `H = 65535` the `u16`
`max_hosts` wraps to 0 and the loop never breaks (no amount of fuel
makes it return), so the claim's "terminates for every H in the u16
range" fails: the code has an overflow bug. -/
theorem c3_get_network_size :
    (∀ fuel r, gnsLoop fuel 65535 4 r = none)
    ∧ get_network_size 0 = none
    ∧ get_network_size 1 = some 2
    ∧ get_network_size 2 = some 2
    ∧ get_network_size 3 = some 3
    ∧ get_network_size 5 = some 3
    ∧ get_network_size 7 = some 4
    ∧ (∀ H, 1 ≤ H → H ≤ 65534 →
        get_network_size H = some (specNetworkSize H)) := by
  refine ⟨?_, by decide, by decide, by decide, by decide, by decide,
    by decide, fun H h1 h2 => get_network_size_correct H h1 h2⟩
  intro fuel r
  exact gnsLoop_diverges_aux fuel 4 r (by norm_num) (by norm_num)

/-- C4: bridge reservation closure.  After `init_ipdb`, every address of
every listed bridge's network (network, broadcast, gateway and all host
addresses — together they exhaust the network) is a key of the IPDB;
consequently `next` never emits an address inside a bridge network, and
no subnet emitted by `new-net` intersects a bridge network. -/
theorem c4_bridge_reservation :
    ∀ (conf : SystemConf) (pots : List PotConf) (bridges : List BridgeConf)
      (b : BridgeConf), b ∈ bridges →
      (∀ a, b.network.containsA a = true →
        mapContains (init_ipdb conf pots bridges) a = true)
      ∧ (∀ a, get conf (init_ipdb conf pots bridges) = some a →
          b.network.containsA a = false)
      ∧ (∀ hn s g a,
          new_net hn conf (init_ipdb conf pots bridges) = some (s, g) →
          s.containsA a = true → b.network.containsA a = false) := by
  intro conf pots bridges b hb
  refine ⟨fun a ha => init_ipdb_bridge_closure conf pots bridges b hb ha,
    ?_, ?_⟩
  · intro a hget
    cases hc : b.network.containsA a
    · rfl
    · exfalso
      have hdb := init_ipdb_bridge_closure conf pots bridges b hb hc
      unfold get at hget
      obtain ⟨l1, l2, _, hpa, _⟩ := (find?_eq_some_split _ _ _).mp hget
      rw [not_contains_iff.mp hpa] at hdb
      cases hdb
  · intro hn s g a hnew hsa
    cases hc : b.network.containsA a
    · rfl
    · exfalso
      have hdb := init_ipdb_bridge_closure conf pots bridges b hb hc
      obtain ⟨p, subs, _, _, hf, _⟩ := new_net_inv hnew
      obtain ⟨l1, l2, _, hus, _⟩ := (find?_eq_some_split _ _ _).mp hf
      unfold is_subnet_usable at hus
      obtain ⟨v, hv⟩ := (mapContains_iff _ _).mp hdb
      have := List.all_eq_true.mp hus (a, v) hv
      rw [hsa] at this
      cases this

/-- C4 witness: with bridge `10.0.0.0/29` listed, its host address
`10.0.0.3` is a key of the main IPDB. -/
theorem c4_bridge_reservation_witness :
    mapContains (init_ipdb conf29 [] [bridgeA]) (IpAddr.v4 167772163)
      = true :=
  (c4_bridge_reservation conf29 [] [bridgeA] bridgeA (by decide)).1
    (IpAddr.v4 167772163) (by decide)

/-- C5: promotion with optional DNS.  The claim says promotion fails iff
a non-DNS field is absent; but `PartialSystemConf::is_valid` also
requires `dns_name` and `dns_ip`, so a configuration with every non-DNS
field present and no DNS is rejected with `IncompleteSystemConf` — even
though the `TryFrom` body itself handles `dns_ip == None` (that branch is
made dead by `is_valid`).  The code contradicts the optional-DNS
contract the spec designates as correct. -/
theorem c5_dns_required_bug :
    pscNoDns.zfs_root.isSome = true
    ∧ pscNoDns.fs_root.isSome = true
    ∧ pscNoDns.network.isSome = true
    ∧ pscNoDns.netmask.isSome = true
    ∧ pscNoDns.gateway.isSome = true
    ∧ pscNoDns.ext_if.isSome = true
    ∧ pscNoDns.dns_name = none
    ∧ pscNoDns.dns_ip = none
    ∧ pscNoDns.is_valid = false
    ∧ potSystemConfigTryFrom pscNoDns
        = .error PotError.IncompleteSystemConf := by
  exact ⟨rfl, rfl, rfl, rfl, rfl, rfl, rfl, rfl, rfl, rfl⟩

/-- C6 counterexample: with only the DNS IP outside the network,
`config-check` exits 0, contradicting the claim that any of the three
violations gives a non-zero exit. -/
theorem c6_config_check_counterexample :
    config_check_exit confDnsOut = 0
    ∧ confDnsOut.network.containsA confDnsOut.dns_ip = false
    ∧ confDnsOut.network.containsA confDnsOut.gateway = true
    ∧ confDnsOut.network.netmask = confDnsOut.netmask := by
  exact ⟨rfl, rfl, rfl, rfl⟩

/-- C6 (amended): `config-check` exits non-zero iff the gateway is
outside the network or the netmask disagrees with the network's; a DNS
violation is reported but does not affect the exit status. -/
theorem c6_config_check_exit :
    ∀ conf : SystemConf,
      (config_check_exit conf = 1 ↔
        (conf.network.containsA conf.gateway = false
          ∨ conf.network.netmask ≠ conf.netmask))
      ∧ (config_check_exit conf = 0 ↔
        (conf.network.containsA conf.gateway = true
          ∧ conf.network.netmask = conf.netmask)) := by
  intro conf
  cases hg : conf.network.containsA conf.gateway <;>
    by_cases hm : conf.network.netmask = conf.netmask <;>
      simp [config_check_exit, hg, hm]

/-- C7: validate conditions and precedence.  Network scope checks
in-use before containment; bridge scope checks bridge existence, then
containment, then in-use; and validation is deterministic. -/
theorem c7_validate :
    ∀ (ip : IpAddr) (conf : SystemConf) (ip_db : Ipdb)
      (bridges : List BridgeConf) (pots : List PotConf)
      (bridge_name : String),
      (validate ip conf ip_db = .error VErr.alreadyInUse ↔
        mapContains ip_db ip = true)
      ∧ (validate ip conf ip_db = .error VErr.outsideNetwork ↔
          mapContains ip_db ip = false
            ∧ conf.network.containsA ip = false)
      ∧ (validate ip conf ip_db = .ok () ↔
          mapContains ip_db ip = false
            ∧ conf.network.containsA ip = true)
      ∧ validate ip conf ip_db = validate ip conf ip_db
      ∧ (validate_with_bridge conf bridges pots bridge_name ip
            = .error VErr.bridgeNotFound ↔
          findBridge bridges bridge_name = none)
      ∧ (∀ bridge, findBridge bridges bridge_name = some bridge →
          ((validate_with_bridge conf bridges pots bridge_name ip
              = .error VErr.outsideBridgeNetwork ↔
            bridge.network.containsA ip = false)
          ∧ (validate_with_bridge conf bridges pots bridge_name ip
              = .error VErr.alreadyInUse ↔
            bridge.network.containsA ip = true
              ∧ mapContains (init_bridge_ipdb bridge pots) ip = true)
          ∧ (validate_with_bridge conf bridges pots bridge_name ip
              = .ok () ↔
            bridge.network.containsA ip = true
              ∧ mapContains (init_bridge_ipdb bridge pots) ip = false)))
      ∧ validate_with_bridge conf bridges pots bridge_name ip
          = validate_with_bridge conf bridges pots bridge_name ip := by
  intro ip conf ip_db bridges pots bridge_name
  refine ⟨?_, ?_, ?_, rfl, ?_, ?_, rfl⟩
  · cases h1 : mapContains ip_db ip <;>
      cases h2 : conf.network.containsA ip <;>
        simp [validate, h1, h2]
  · cases h1 : mapContains ip_db ip <;>
      cases h2 : conf.network.containsA ip <;>
        simp [validate, h1, h2]
  · cases h1 : mapContains ip_db ip <;>
      cases h2 : conf.network.containsA ip <;>
        simp [validate, h1, h2]
  · unfold validate_with_bridge
    cases hfb : findBridge bridges bridge_name with
    | none => simp
    | some bridge =>
      dsimp only
      cases h2 : bridge.network.containsA ip <;>
        cases h1 : mapContains (init_bridge_ipdb bridge pots) ip <;>
          simp [h1, h2]
  · intro bridge hfb
    unfold validate_with_bridge
    rw [hfb]
    dsimp only
    refine ⟨?_, ?_, ?_⟩ <;>
      (cases h2 : bridge.network.containsA ip <;>
        cases h1 : mapContains (init_bridge_ipdb bridge pots) ip <;>
          simp [h1, h2])

/-- C8 counterexample: on spec scenario 6 the `etc-hosts` lines are
`"10.0.0.10 a"` and `"10.0.0.12 c"` — the separator is a single space
(`println!("{} {}", ...)`), not the TAB character the claim states. -/
theorem c8_etc_hosts_counterexample :
    etc_hosts_lines ipShow (get_hosts_for_public_bridge jailsPub)
      = ["10.0.0.10 a", "10.0.0.12 c"]
    ∧ etc_hosts_lines ipShow (get_hosts_for_public_bridge jailsPub)
      ≠ ["10.0.0.10\ta", "10.0.0.12\tc"] := by
  constructor
  · rfl
  · decide

/-- C8 (amended): with no bridge argument, `etc-hosts` emits one line
per `PublicBridge` jail (provided their addresses are pairwise
distinct), as `<ip><SPACE><name>`, in strictly ascending address order;
with a named private bridge, the same holds for the `PrivateBridge`
jails whose address lies in that bridge's network. -/
theorem c8_etc_hosts :
    ∀ (pots : List PotConf) (bridges : List BridgeConf)
      (bridge_name : String) (bridge : BridgeConf),
      ((pots.filter (fun v =>
          decide (v.network_type = NetType.PublicBridge))).map
        PotConf.ipUnwrap).Nodup →
      findBridge bridges bridge_name = some bridge →
      ((pots.filter (fun v =>
          decide (v.network_type = NetType.PrivateBridge)
            && bridge.network.containsA v.ipUnwrap)).map
        PotConf.ipUnwrap).Nodup →
      (mapSorted (get_hosts_for_public_bridge pots)
        ∧ (∀ i nm, (i, nm) ∈ get_hosts_for_public_bridge pots ↔
            ∃ v ∈ pots, v.network_type = NetType.PublicBridge
              ∧ v.ipUnwrap = i ∧ v.name = nm)
        ∧ mapSorted (get_hosts_from_bridge bridges pots bridge_name)
        ∧ (∀ i nm,
            (i, nm) ∈ get_hosts_from_bridge bridges pots bridge_name ↔
            ∃ v ∈ pots, v.network_type = NetType.PrivateBridge
              ∧ bridge.network.containsA v.ipUnwrap = true
              ∧ v.ipUnwrap = i ∧ v.name = nm)) := by
  intro pots bridges bridge_name bridge hnd1 hfb hnd2
  have hbr : get_hosts_from_bridge bridges pots bridge_name
      = pots.foldl (selStep (fun v =>
          decide (v.network_type = NetType.PrivateBridge)
            && bridge.network.containsA v.ipUnwrap)) [] := by
    unfold get_hosts_from_bridge
    rw [hfb]
  refine ⟨selStep_foldl_sorted _ _ _ mapSorted_nil, ?_, ?_, ?_⟩
  · intro i nm
    rw [get_hosts_for_public_bridge,
      selStep_foldl_mem _ pots [] hnd1 (by simp) i nm]
    simp only [List.not_mem_nil, false_or, decide_eq_true_eq]
  · rw [hbr]
    exact selStep_foldl_sorted _ _ _ mapSorted_nil
  · intro i nm
    rw [hbr, selStep_foldl_mem _ pots [] hnd2 (by simp) i nm]
    simp only [List.not_mem_nil, false_or, Bool.and_eq_true,
      decide_eq_true_eq, and_assoc]

/-- C8 witness: in scenario 6 the pair `(10.0.0.10, "a")` is an entry of
the public `etc-hosts` map. -/
theorem c8_etc_hosts_witness :
    (IpAddr.v4 167772170, "a") ∈ get_hosts_for_public_bridge jailsPub :=
  ((c8_etc_hosts jailsPub [bridgeA] "bra" bridgeA (by decide) (by decide)
    (by decide)).2.1 (IpAddr.v4 167772170) "a").mpr (by decide)

/-- C9 counterexample: a legacy jail with `ip4=10.0.0.7` and
`vnet=false` is classified `Alias` yet appears in the scanner's result
list, contradicting the claim that Alias jails are filtered out
entirely. -/
theorem c9_alias_counterexample :
    get_pot_conf_list parse_ip_v4
      [("legacy", ("ip4=10.0.0.7\nvnet=false").data)]
      = .ok [{ name := "legacy", ip_addr := some (IpAddr.v4 167772167),
               network_type := NetType.Alias, aliases := none }]
    ∧ ({ name := "legacy", ip_addr := some (IpAddr.v4 167772167),
         network_type := NetType.Alias,
         aliases := none } : PotConf).network_type = NetType.Alias := by
  exact ⟨rfl, rfl⟩

/-- C9 (amended): jails classified `Alias` through the modern
`network_type=alias` key are filtered out (skipped); an `Alias` entry
can reach the result list only through the legacy `ip4`+`vnet` path,
i.e. only when the jail has no `network_type` key. -/
theorem c9_alias_filtering :
    ∀ (parseIp : List Char → Option IpAddr) (name : String)
      (t : PotConfVerbatim) (p : PotConf),
      (t.network_type = some ("alias".data) →
        classifyJail parseIp name t = .skip)
      ∧ (classifyJail parseIp name t = .push p →
          p.network_type = NetType.Alias → t.network_type = none) := by
  intro parseIp name t p
  exact ⟨classifyJail_alias_skip parseIp name t,
    fun h1 h2 => classifyJail_alias_only_legacy parseIp name t p h1 h2⟩

/-- End-to-end validation in the shape of spec §8 scenario 3: a bridge
occupying `10.0.0.0/28` inside `10.0.0.0/24` blocks the first two /29
subnets, so `new-net -s 5` carves `net=10.0.0.16/29`,
`gateway=10.0.0.17`, and `next` skips past the fully reserved bridge
range `.0`–`.15` to `10.0.0.16`. -/
theorem scenario_new_net_with_bridge :
    (let conf : SystemConf :=
      { zfs_root := "zroot/pot", fs_root := "/opt/pot",
        network := IpNet.v4 167772160 24, netmask := IpAddr.v4 4294967040,
        gateway := IpAddr.v4 167772161, ext_if := "em0",
        dns_name := "pot-dns", dns_ip := IpAddr.v4 167772162 };
     let br : BridgeConf :=
      { name := "b28", network := IpNet.v4 167772160 28,
        gateway := IpAddr.v4 167772161 };
     new_net 5 conf (init_ipdb conf [] [br])
        = some (IpNet.v4 167772176 29, IpAddr.v4 167772177)
      ∧ get conf (init_ipdb conf [] [br]) = some (IpAddr.v4 167772176)) := by
  decide

/-- C10: the scanner is not total on malformed input.  A jail whose `ip`
value does not parse (here because of a trailing comment) makes
`get_pot_conf_list` panic through `IpAddr::from_str(..).ok().unwrap()`
instead of skipping the jail: the invocation aborts. -/
theorem c10_scanner_panics :
    get_pot_conf_list parse_ip_v4
      [("broken", ("network_type=public-bridge\nip=1.2.3.4 # comment").data)]
      = .error ()
    ∧ parse_ip_v4 ("1.2.3.4 # comment").data = none := by
  exact ⟨rfl, rfl⟩

end Potnet
